/-
Verification of the phone_directory repository (src/phone_directory.py).

The Python program is shallowly embedded below.  Python strings are modelled
as `List Char` (`PyStr`); the two pydantic field validators are modelled as
executable Boolean regex recognisers; the store (load/save) is modelled at
the level of parsed JSON (a list of six-string objects); search and
pagination follow the source line by line, with Python exceptions modelled
by `Except` and logging modelled by an explicit list of log messages.
-/
import Mathlib

set_option maxRecDepth 8192

/-- Python strings are modelled as lists of characters. -/
abbrev PyStr := List Char

/-- Literal helper: the character list of a Lean string literal. -/
def S (s : String) : PyStr := s.data

/-!
### Character classes and Python string helpers
-/

/-- Digit class `[0-9]` of the phone regex. -/
def isDigitChar (c : Char) : Bool := '0' ≤ c && c ≤ '9'

/-- Python's `\s` on the characters in this system's scope: the ASCII
whitespace characters.  (Python's `re` also matches some rarer Unicode
whitespace; no value in the repository or its tests contains any.) -/
def isPyWhitespace (c : Char) : Bool :=
  c = ' ' || c = '\t' || c = '\n' || c = '\r' || c = '\x0b' || c = '\x0c'

/-- The separator class `[-\s\.]` of the phone regex. -/
def isSepChar (c : Char) : Bool := c = '-' || c = '.' || isPyWhitespace c

/-- The name-character class `[a-zA-Zа-яА-Я\s]` of the name regex.  Note the
Cyrillic ranges exclude `Ё`/`ё`, exactly as the source pattern does. -/
def isNameChar (c : Char) : Bool :=
  ('a' ≤ c && c ≤ 'z') || ('A' ≤ c && c ≤ 'Z') ||
  ('а' ≤ c && c ≤ 'я') || ('А' ≤ c && c ≤ 'Я') || isPyWhitespace c

/-- Upper/lower case pairs of the two alphabets in the data model's scope
(Latin A-Z and Cyrillic А-Я plus Ё), as Python's `str.lower` maps them. -/
def lowerPairs : List (Char × Char) :=
  [('A','a'),('B','b'),('C','c'),('D','d'),('E','e'),('F','f'),('G','g'),
   ('H','h'),('I','i'),('J','j'),('K','k'),('L','l'),('M','m'),('N','n'),
   ('O','o'),('P','p'),('Q','q'),('R','r'),('S','s'),('T','t'),('U','u'),
   ('V','v'),('W','w'),('X','x'),('Y','y'),('Z','z'),
   ('А','а'),('Б','б'),('В','в'),('Г','г'),('Д','д'),('Е','е'),('Ж','ж'),
   ('З','з'),('И','и'),('Й','й'),('К','к'),('Л','л'),('М','м'),('Н','н'),
   ('О','о'),('П','п'),('Р','р'),('С','с'),('Т','т'),('У','у'),('Ф','ф'),
   ('Х','х'),('Ц','ц'),('Ч','ч'),('Ш','ш'),('Щ','щ'),('Ъ','ъ'),('Ы','ы'),
   ('Ь','ь'),('Э','э'),('Ю','ю'),('Я','я'),('Ё','ё')]

/-- Python `str.lower` on one character, restricted to the two alphabets the
system handles (all other characters are fixed, as they are for every value
the program stores: digits, punctuation, separators). -/
def pyLower (c : Char) : Char :=
  match lowerPairs.find? (fun p => p.1 == c) with
  | some p => p.2
  | none => c

/-- Python `str.lower` on a whole string. -/
def pyStrLower (s : PyStr) : PyStr := s.map pyLower

/-- Python `needle in hay` for strings: contiguous substring test. -/
def isSubstring (needle : PyStr) : PyStr → Bool
  | [] => needle.isEmpty
  | c :: rest => needle.isPrefixOf (c :: rest) || isSubstring needle rest

/-- Python `str.split(sep)` for a one-character separator: splits at every
occurrence, `"".split(sep) = [""]`. -/
def pySplit (sep : Char) : PyStr → List PyStr
  | [] => [[]]
  | c :: rest =>
    match pySplit sep rest with
    | [] => [[c]]
    | p :: ps => if c = sep then [] :: p :: ps else (c :: p) :: ps

/-- Python list indexing `l[i]`, with negative indices counting from the
end; `none` models an `IndexError`. -/
def pyGetIdx (l : List α) (i : Int) : Option α :=
  let j : Int := if i < 0 then (l.length : Int) + i else i
  if 0 ≤ j then l.get? j.toNat else none

/-- Resolution of one slice endpoint of `l[start:stop]` for a list of length
`n`: negative values count from the end and clamp at `0`, nonnegative values
clamp at `n`. -/
def pySliceIdx (n : Nat) (i : Int) : Nat :=
  if i < 0 then ((n : Int) + i).toNat else min i.toNat n

/-- Python slicing `l[start:stop]`. -/
def pySlice (l : List α) (start stop : Int) : List α :=
  (l.take (pySliceIdx l.length stop)).drop (pySliceIdx l.length start)

/-!
### The two pydantic field validators

Source (`Record.validate_string_fields`):
  pattern = `^[a-zA-Zа-яА-Я\s]+(?:-[a-zA-Zа-яА-Я\s]+)?$` checked with
  `re.match`.
Source (`Record.validate_phone`):
  pattern = `^[\+]?[(]?[0-9]{3}[)]?[-\s\.]?[0-9]{3}[-\s\.]?[0-9]{4,6}$`
  checked with `re.match`.

Both patterns are anchored at the start by `re.match` and at the end by the
final `$`; Python's `$` also matches just before a single trailing newline,
which `pyDollarMatch` reproduces.
-/

/-- A nonempty run of name characters: `[a-zA-Zа-яА-Я\s]+`. -/
def nameSegOk (p : PyStr) : Bool := !p.isEmpty && p.all isNameChar

/-- Full-string match of `[C]+(?:-[C]+)?` where `C` is the name class.
Since `-` is not in `C`, the regex matches exactly the strings with at most
one `-`, where every `-`-separated segment is a nonempty run of `C`. -/
def nameCore (cs : PyStr) : Bool :=
  match pySplit '-' cs with
  | [p] => nameSegOk p
  | [p, q] => nameSegOk p && nameSegOk q
  | _ => false

/-- Consume an optional single character `c` from the front. -/
def stripOptChar (c : Char) : PyStr → PyStr
  | [] => []
  | x :: rest => if x = c then rest else x :: rest

/-- Consume an optional single character satisfying `p` from the front. -/
def stripOptPred (p : Char → Bool) : PyStr → PyStr
  | [] => []
  | x :: rest => if p x then rest else x :: rest

/-- Consume exactly `n` digits from the front. -/
def eatDigits : Nat → PyStr → Option PyStr
  | 0, cs => some cs
  | _ + 1, [] => none
  | n + 1, c :: cs => if isDigitChar c then eatDigits n cs else none

/-- The prefix groups `[\+]?[(]?[0-9]{3}[)]?[-\s\.]?[0-9]{3}[-\s\.]?` of the
phone regex, returning the remaining input.  Every pair of adjacent groups
has disjoint character classes, so this deterministic reading agrees with
the backtracking regex engine. -/
def phonePrefixRest (cs : PyStr) : Option PyStr :=
  match eatDigits 3 (stripOptChar '(' (stripOptChar '+' cs)) with
  | none => none
  | some cs3 =>
    match eatDigits 3 (stripOptPred isSepChar (stripOptChar ')' cs3)) with
    | none => none
    | some cs6 => some (stripOptPred isSepChar cs6)

/-- Full-string match of the phone pattern body: prefix groups followed by
`[0-9]{4,6}` consuming the whole rest of the input. -/
def phoneCore (cs : PyStr) : Bool :=
  match phonePrefixRest cs with
  | some rest =>
    rest.all isDigitChar && decide (4 ≤ rest.length) && decide (rest.length ≤ 6)
  | none => false

/-- `re.match` of a pattern `^...$`: the body matches the whole string, or
the whole string minus a single trailing newline (Python `$` semantics). -/
def pyDollarMatch (core : PyStr → Bool) (s : PyStr) : Bool :=
  core s || (s.getLast? == some '\n' && core s.dropLast)

/-- `Record.validate_string_fields`: `true` means the validator returns the
value, `false` means it raises `PydanticCustomError`. -/
def validate_string_fields (value : PyStr) : Bool := pyDollarMatch nameCore value

/-- `Record.validate_phone`. -/
def validate_phone (value : PyStr) : Bool := pyDollarMatch phoneCore value

/-!
### Record construction
-/

/-- The `Record` pydantic dataclass: six string fields. -/
structure Record where
  last_name : PyStr
  first_name : PyStr
  middle_name : PyStr
  organization : PyStr
  work_phone : PyStr
  personal_phone : PyStr
deriving DecidableEq

/-- A parsed JSON object with the six record fields (the shape
`Record(**data)` receives from `load_records`). -/
structure RawRecord where
  last_name : PyStr
  first_name : PyStr
  middle_name : PyStr
  organization : PyStr
  work_phone : PyStr
  personal_phone : PyStr
deriving DecidableEq

/-- `dataclasses.asdict(record)`. -/
def Record.toRaw (r : Record) : RawRecord :=
  { last_name := r.last_name, first_name := r.first_name,
    middle_name := r.middle_name, organization := r.organization,
    work_phone := r.work_phone, personal_phone := r.personal_phone }

/-- The names of the fields that failed their pydantic validator, in field
declaration order (pydantic aggregates all failures into one
`ValidationError`). -/
def recordFieldErrors (raw : RawRecord) : List PyStr :=
  (if validate_string_fields raw.last_name then [] else [S "last_name"]) ++
  (if validate_string_fields raw.first_name then [] else [S "first_name"]) ++
  (if validate_string_fields raw.middle_name then [] else [S "middle_name"]) ++
  (if validate_string_fields raw.organization then [] else [S "organization"]) ++
  (if validate_phone raw.work_phone then [] else [S "work_phone"]) ++
  (if validate_phone raw.personal_phone then [] else [S "personal_phone"])

/-- `Record(**data)`: validated construction; `error` carries the failing
field names of the raised `ValidationError`. -/
def mkRecord (raw : RawRecord) : Except (List PyStr) Record :=
  match recordFieldErrors raw with
  | [] => .ok { last_name := raw.last_name, first_name := raw.first_name,
                middle_name := raw.middle_name, organization := raw.organization,
                work_phone := raw.work_phone, personal_phone := raw.personal_phone }
  | errs => .error errs

/-- All six fields of an in-memory record satisfy their patterns. -/
def recordIsValid (r : Record) : Bool := (recordFieldErrors r.toRaw).isEmpty

/-!
### Store: load_records / save_records
-/

/-- Log lines produced through the module logger. -/
inductive LogMsg where
  | decodeError
  | validationError
  | unknownField (f : PyStr)
deriving DecidableEq

/-- The state of the persisted file as `load_records` sees it: absent,
unparseable JSON, or a parsed list of six-field objects. -/
inductive LoadInput where
  | missing
  | corrupt
  | parsed (raws : List RawRecord)

/-- The list comprehension `[Record(**data) for data in records_data]`: the
first `ValidationError` aborts the whole construction. -/
def buildRecords : List RawRecord → Except (List PyStr) (List Record)
  | [] => .ok []
  | raw :: rest =>
    match mkRecord raw with
    | .error e => .error e
    | .ok r =>
      match buildRecords rest with
      | .error e => .error e
      | .ok rs => .ok (r :: rs)

/-- `PhoneDirectory.load_records`, returning the in-memory directory and the
log lines written. -/
def load_records : LoadInput → List Record × List LogMsg
  | .missing => ([], [])
  | .corrupt => ([], [.decodeError])
  | .parsed raws =>
    match buildRecords raws with
    | .ok records => (records, [])
    | .error _ => ([], [.validationError])

/-- `PhoneDirectory.save_records`: serializes every record as a flat JSON
object via `dataclasses.asdict`. -/
def save_records (records : List Record) : List RawRecord :=
  records.map Record.toRaw

/-!
### QueryEngine: search_records
-/

/-- Uncaught Python exceptions that `search_records` can raise. -/
inductive PyExn where
  | valueError
  | attributeError
deriving DecidableEq

instance {ε α : Type} [DecidableEq ε] [DecidableEq α] : DecidableEq (Except ε α) := fun a b =>
  match a, b with
  | .ok x, .ok y =>
    if h : x = y then isTrue (by rw [h]) else isFalse (fun hh => h (by injection hh))
  | .ok _, .error _ => isFalse (fun hh => Except.noConfusion hh)
  | .error _, .ok _ => isFalse (fun hh => Except.noConfusion hh)
  | .error x, .error y =>
    if h : x = y then isTrue (by rw [h]) else isFalse (fun hh => h (by injection hh))

/-- The six field names, in dataclass declaration order. -/
def fieldNames : List PyStr :=
  [S "last_name", S "first_name", S "middle_name",
   S "organization", S "work_phone", S "personal_phone"]

/-- The non-field attributes of the `Record` class relevant to
`hasattr`/`getattr`: the two validator classmethods.  (Python would also
find the inherited dunder attributes; they are approximated by the
`__`-prefix test in `recordHasAttr` and, like the classmethods, are not
strings, so `getattr(...).lower()` fails on them.) -/
def recordMethodNames : List PyStr :=
  [S "validate_string_fields", S "validate_phone"]

/-- `hasattr(record, f)` for a `Record` instance (independent of the
instance). -/
def recordHasAttr (f : PyStr) : Bool :=
  decide (f ∈ fieldNames) || decide (f ∈ recordMethodNames) ||
  decide (f.take 2 = S "__")

/-- `getattr(record, f)` when the attribute is one of the six string fields;
`none` when `f` is not a field (so that `.lower()` on the result of a
non-field attribute is an `AttributeError`). -/
def Record.getattrStr (r : Record) (f : PyStr) : Option PyStr :=
  if f = S "last_name" then some r.last_name
  else if f = S "first_name" then some r.first_name
  else if f = S "middle_name" then some r.middle_name
  else if f = S "organization" then some r.organization
  else if f = S "work_phone" then some r.work_phone
  else if f = S "personal_phone" then some r.personal_phone
  else none

/-- The predicate of the exact-field branch: the named field, lower-cased,
equals the value, lower-cased. -/
def fieldEquals (f v : PyStr) (r : Record) : Bool :=
  match r.getattrStr f with
  | some s => decide (pyStrLower s = pyStrLower v)
  | none => false

/-- `dataclasses.asdict(record).values()`, in field order. -/
def recordValues (r : Record) : List PyStr :=
  [r.last_name, r.first_name, r.middle_name,
   r.organization, r.work_phone, r.personal_phone]

/-- The predicate of the substring branch: the lower-cased query occurs in
the lower-cased value of some field. -/
def recordMatchesSubstring (query : PyStr) (r : Record) : Bool :=
  (recordValues r).any (fun s => isSubstring (pyStrLower query) (pyStrLower s))

/-- The `for record in self.records` loop of the exact-field branch, with
the accumulated `results` list (stored reversed).  The `hasattr` check runs
inside the loop, exactly as in the source. -/
def searchFieldLoop (f v : PyStr) (acc : List Record) :
    List Record → Except PyExn (List Record × List LogMsg)
  | [] => .ok (acc.reverse, [])
  | r :: rest =>
    if recordHasAttr f then
      match r.getattrStr f with
      | some s =>
        if pyStrLower s = pyStrLower v then searchFieldLoop f v (r :: acc) rest
        else searchFieldLoop f v acc rest
      | none => .error .attributeError
    else .ok (acc.reverse, [.unknownField f])

/-- `PhoneDirectory.search_records`.  `field, value = query.split("=")`
raises `ValueError` unless the split yields exactly two parts. -/
def search_records (records : List Record) (query : PyStr) :
    Except PyExn (List Record × List LogMsg) :=
  if '=' ∈ pyStrLower query then
    match pySplit '=' query with
    | [f, v] => searchFieldLoop f v [] records
    | _ => .error .valueError
  else
    .ok (records.filter (recordMatchesSubstring query), [])

/-!
### Presenter: display_records
-/

/-- `math.ceil(n / d)` as computed on line 127, for the positive page sizes
the claims quantify over (the float division of the source is exact at the
directory sizes in scope). -/
def intCeilDiv (n : Nat) (d : Int) : Int := ((n : Int) + d - 1) / d

/-- The pagination arithmetic of `display_records` (lines 109-111 and 127):
the displayed slice and the reported total page count. -/
def paginate (records : List Record) (entries_per_page page_number : Int) :
    List Record × Int :=
  let start := (page_number - 1) * entries_per_page
  (pySlice records start (start + entries_per_page),
   intCeilDiv records.length entries_per_page)

/-- `records or self.records` (line 108): `None` and the empty list are both
falsy, so both fall back to the directory's own record list. -/
def pyOrElse (records : Option (List Record)) (selfRecords : List Record) :
    List Record :=
  match records with
  | none => selfRecords
  | some rs => if rs.isEmpty then selfRecords else rs

/-- `PhoneDirectory.display_records`: resolves the `records` argument, then
paginates. -/
def display_records (selfRecords : List Record) (records : Option (List Record))
    (entries_per_page page_number : Int) : List Record × Int :=
  paginate (pyOrElse records selfRecords) entries_per_page page_number

/-!
### edit_record
-/

/-- `setattr(record, f, v)` for the six dataclass fields.  pydantic
dataclasses do not validate assignments unless `validate_assignment` is
enabled in the config, which this class does not do, so the new value is
stored unchecked. -/
def Record.setField (r : Record) (f v : PyStr) : Record :=
  if f = S "last_name" then { r with last_name := v }
  else if f = S "first_name" then { r with first_name := v }
  else if f = S "middle_name" then { r with middle_name := v }
  else if f = S "organization" then { r with organization := v }
  else if f = S "work_phone" then { r with work_phone := v }
  else if f = S "personal_phone" then { r with personal_phone := v }
  else r

/-- `PhoneDirectory.edit_record`: `index` is the record index, `fieldNumber`
the 1-based field number read from the user, `newValue` the entered value.
Returns the directory afterwards (which `save_records` then persists when
the field lookup succeeded).  A field-number `IndexError` is caught and
leaves the directory unchanged. -/
def edit_record (records : List Record) (index : Int) (fieldNumber : Int)
    (newValue : PyStr) : List Record :=
  if 0 ≤ index ∧ index < (records.length : Int) then
    match pyGetIdx fieldNames (fieldNumber - 1) with
    | some f =>
      match records.get? index.toNat with
      | some r => records.set index.toNat (r.setField f newValue)
      | none => records
    | none => records
  else records

/-!
### Concrete fixtures (taken from the repository's test data)
-/

/-- The record used throughout `src/tests/test_phone_directory.py` (with the
edited first name `Андрей`). -/
def sokolovRecord : Record :=
  { last_name := S "Соколов", first_name := S "Андрей",
    middle_name := S "Анатольевич", organization := S "СберБанк",
    work_phone := S "495-555-6666", personal_phone := S "916-666-7777" }

/-- A second valid record, Latin alphabet. -/
def smithRecord : Record :=
  { last_name := S "Smith", first_name := S "John", middle_name := S "X",
    organization := S "Org", work_phone := S "495-555-6666",
    personal_phone := S "916-666-7777" }

/-- Fifteen pairwise distinct records, for the pagination claims. -/
def pageRecords : List Record :=
  (List.range 15).map fun i => { smithRecord with middle_name := List.replicate (i + 1) 'a' }

/-!
### Helper lemmas about the Python string primitives
-/

theorem pyLower_eq_eq_iff (c : Char) : pyLower c = '=' ↔ c = '=' := by
  constructor
  · intro h
    unfold pyLower at h
    cases hf : lowerPairs.find? (fun p => p.1 == c) with
    | none => rw [hf] at h; exact h
    | some p =>
      rw [hf] at h
      have hmem : p ∈ lowerPairs := List.mem_of_find?_eq_some hf
      have hno : ∀ q ∈ lowerPairs, q.2 ≠ '=' := by decide
      exact absurd h (hno p hmem)
  · intro h; subst h; decide

theorem mem_eq_pyStrLower (q : PyStr) : '=' ∈ pyStrLower q ↔ '=' ∈ q := by
  simp only [pyStrLower, List.mem_map]
  constructor
  · rintro ⟨a, ha, h⟩; exact ((pyLower_eq_eq_iff a).mp h) ▸ ha
  · intro h; exact ⟨'=', h, by decide⟩

theorem pySplit_ne_nil (sep : Char) (l : PyStr) : pySplit sep l ≠ [] := by
  cases l with
  | nil => simp [pySplit]
  | cons c rest =>
    simp only [pySplit]
    cases hps : pySplit sep rest with
    | nil => simp
    | cons p ps => by_cases h : c = sep <;> simp [h]

theorem pySplit_of_not_mem {sep : Char} {l : PyStr} (h : sep ∉ l) : pySplit sep l = [l] := by
  induction l with
  | nil => rfl
  | cons c rest ih =>
    have hc : ¬ c = sep := fun hh => h (by rw [← hh]; exact List.mem_cons_self c rest)
    have hr : sep ∉ rest := fun hh => h (List.mem_cons_of_mem _ hh)
    simp only [pySplit, ih hr]
    rw [if_neg hc]

theorem pySplit_first {sep : Char} (v : PyStr) {f : PyStr} (hf : sep ∉ f) :
    pySplit sep (f ++ sep :: v) = f :: pySplit sep v := by
  induction f with
  | nil =>
    simp only [List.nil_append, pySplit]
    cases hs : pySplit sep v with
    | nil => exact absurd hs (pySplit_ne_nil sep v)
    | cons p ps => simp
  | cons c f0 ih =>
    have hc : ¬ c = sep := fun hh => hf (by rw [← hh]; exact List.mem_cons_self c f0)
    have hf0 : sep ∉ f0 := fun hh => hf (List.mem_cons_of_mem _ hh)
    simp only [List.cons_append, pySplit, List.append_eq, ih hf0]
    simp [hc]

/-- For a query of the shape `f=v` with a single `=`, the branch condition
of `search_records` holds and the split produces exactly `[f, v]`. -/
theorem search_records_single_eq (records : List Record) {f v : PyStr}
    (hf : '=' ∉ f) (hv : '=' ∉ v) :
    search_records records (f ++ '=' :: v) = searchFieldLoop f v [] records := by
  have hcond : '=' ∈ pyStrLower (f ++ '=' :: v) := by
    rw [mem_eq_pyStrLower]
    exact List.mem_append_right _ (List.mem_cons_self '=' v)
  have hsplit : pySplit '=' (f ++ '=' :: v) = [f, v] := by
    rw [pySplit_first v hf, pySplit_of_not_mem hv]
  unfold search_records
  rw [if_pos hcond, hsplit]

/-!
### Helper lemmas about the exact-field loop
-/

theorem getattrStr_last_name (r : Record) :
    r.getattrStr (S "last_name") = some r.last_name := by
  unfold Record.getattrStr; rw [if_pos rfl]

theorem getattrStr_first_name (r : Record) :
    r.getattrStr (S "first_name") = some r.first_name := by
  unfold Record.getattrStr
  rw [if_neg (by decide), if_pos rfl]

theorem getattrStr_middle_name (r : Record) :
    r.getattrStr (S "middle_name") = some r.middle_name := by
  unfold Record.getattrStr
  rw [if_neg (by decide), if_neg (by decide), if_pos rfl]

theorem getattrStr_organization (r : Record) :
    r.getattrStr (S "organization") = some r.organization := by
  unfold Record.getattrStr
  rw [if_neg (by decide), if_neg (by decide), if_neg (by decide), if_pos rfl]

theorem getattrStr_work_phone (r : Record) :
    r.getattrStr (S "work_phone") = some r.work_phone := by
  unfold Record.getattrStr
  rw [if_neg (by decide), if_neg (by decide), if_neg (by decide), if_neg (by decide),
    if_pos rfl]

theorem getattrStr_personal_phone (r : Record) :
    r.getattrStr (S "personal_phone") = some r.personal_phone := by
  unfold Record.getattrStr
  rw [if_neg (by decide), if_neg (by decide), if_neg (by decide), if_neg (by decide),
    if_neg (by decide), if_pos rfl]

theorem searchFieldLoop_filter {f : PyStr} (v : PyStr) (getf : Record → PyStr)
    (hAttr : recordHasAttr f = true)
    (hget : ∀ r : Record, r.getattrStr f = some (getf r)) :
    ∀ (records acc : List Record),
      searchFieldLoop f v acc records =
        .ok (acc.reverse ++ records.filter (fieldEquals f v), []) := by
  intro records
  induction records with
  | nil => intro acc; simp [searchFieldLoop]
  | cons r rest ih =>
    intro acc
    have hfe : fieldEquals f v r = decide (pyStrLower (getf r) = pyStrLower v) := by
      simp [fieldEquals, hget r]
    simp only [searchFieldLoop, hAttr, if_true, hget r]
    by_cases hc : pyStrLower (getf r) = pyStrLower v
    · rw [if_pos hc, ih (r :: acc)]
      simp [List.filter_cons, hfe, hc]
    · rw [if_neg hc, ih acc]
      simp [List.filter_cons, hfe, hc]

theorem searchFieldLoop_unknown {f : PyStr} (v : PyStr)
    (hAttr : recordHasAttr f = false) (records : List Record) :
    searchFieldLoop f v [] records =
      .ok ([], if records.isEmpty then [] else [.unknownField f]) := by
  cases records with
  | nil => simp [searchFieldLoop]
  | cons r rest => simp [searchFieldLoop, hAttr]

/-!
### C2: exact-field search
-/

/-- C2: for a query `field=value` whose field is one of the six record
field names (and whose value contains no further `=`), `search_records`
returns exactly the records whose named field equals the value
case-insensitively, in directory order, logging nothing. -/
theorem search_exact_field (records : List Record) (f v : PyStr)
    (hf : f ∈ fieldNames) (hv : '=' ∉ v) :
    search_records records (f ++ '=' :: v) =
      .ok (records.filter (fieldEquals f v), []) := by
  have hfne : '=' ∉ f := by
    fin_cases hf <;> decide
  rw [search_records_single_eq records hfne hv]
  fin_cases hf
  · simpa using searchFieldLoop_filter v (fun r => r.last_name) (by decide)
      getattrStr_last_name records []
  · simpa using searchFieldLoop_filter v (fun r => r.first_name) (by decide)
      getattrStr_first_name records []
  · simpa using searchFieldLoop_filter v (fun r => r.middle_name) (by decide)
      getattrStr_middle_name records []
  · simpa using searchFieldLoop_filter v (fun r => r.organization) (by decide)
      getattrStr_organization records []
  · simpa using searchFieldLoop_filter v (fun r => r.work_phone) (by decide)
      getattrStr_work_phone records []
  · simpa using searchFieldLoop_filter v (fun r => r.personal_phone) (by decide)
      getattrStr_personal_phone records []

/-- C2 witness: the P5 instance from the test suite, evaluated. -/
theorem search_exact_field_witness :
    (S "first_name" ∈ fieldNames) ∧ ('=' ∉ S "андрей") ∧
    search_records [sokolovRecord] (S "first_name" ++ '=' :: S "андрей") =
      .ok ([sokolovRecord].filter (fieldEquals (S "first_name") (S "андрей")), []) ∧
    [sokolovRecord].filter (fieldEquals (S "first_name") (S "андрей")) = [sokolovRecord] :=
  ⟨by decide, by decide,
   search_exact_field [sokolovRecord] (S "first_name") (S "андрей") (by decide) (by decide),
   by decide⟩

/-!
### C3: splitting the query at `=`
-/

/-- C3 counterexample: a query whose value part itself contains `=` is NOT
"split at the first `=` and processed without failure": `query.split("=")`
yields three parts and the two-variable unpacking raises `ValueError`. -/
theorem search_two_eq_raises :
    search_records [sokolovRecord] (S "organization=a=b") = .error .valueError := by
  decide

/-- C3 as amended: a query containing exactly one `=` (field and value parts
free of `=`) is split there into `fieldName` and `value`, and search
proceeds with the per-record field loop on that pair. -/
theorem search_splits_at_single_eq (records : List Record) (f v : PyStr)
    (hf : '=' ∉ f) (hv : '=' ∉ v) :
    search_records records (f ++ '=' :: v) = searchFieldLoop f v [] records :=
  search_records_single_eq records hf hv

/-- C3 witness: the split of `first_name=андрей`, evaluated on the test
record. -/
theorem search_splits_at_single_eq_witness :
    ('=' ∉ S "first_name") ∧ ('=' ∉ S "андрей") ∧
    search_records [sokolovRecord] (S "first_name" ++ '=' :: S "андрей") =
      searchFieldLoop (S "first_name") (S "андрей") [] [sokolovRecord] ∧
    searchFieldLoop (S "first_name") (S "андрей") [] [sokolovRecord] =
      .ok ([sokolovRecord], []) :=
  ⟨by decide, by decide,
   search_splits_at_single_eq [sokolovRecord] (S "first_name") (S "андрей")
     (by decide) (by decide),
   by decide⟩

/-!
### C6: substring search
-/

/-- C6: for a query containing no `=`, search returns exactly the records
for which the lower-cased query is a substring of the lower-cased value of
at least one of the six fields, in directory order, logging nothing. -/
theorem search_substring (records : List Record) (query : PyStr)
    (hq : '=' ∉ query) :
    search_records records query =
      .ok (records.filter (recordMatchesSubstring query), []) := by
  unfold search_records
  rw [if_neg (fun hmem => hq ((mem_eq_pyStrLower query).mp hmem))]

/-- C6 witness: the P6 instance from the test suite, evaluated on one
matching and one non-matching record. -/
theorem search_substring_witness :
    ('=' ∉ S "андрей") ∧
    search_records [sokolovRecord, smithRecord] (S "андрей") =
      .ok ([sokolovRecord, smithRecord].filter (recordMatchesSubstring (S "андрей")), []) ∧
    [sokolovRecord, smithRecord].filter (recordMatchesSubstring (S "андрей")) =
      [sokolovRecord] :=
  ⟨by decide,
   search_substring [sokolovRecord, smithRecord] (S "андрей") (by decide),
   by decide⟩

/-!
### C7: unknown field name
-/

/-- C7 counterexample: for an empty directory an unknown field is NOT
reported via a logged message — the `hasattr` check sits inside the
per-record loop, which never runs, so search returns empty with no log. -/
theorem search_unknown_field_empty_dir_no_log :
    search_records [] (S "first_nam=андрей") = .ok ([], []) := by decide

/-- C7 as amended: for a query `field=value` whose field is not an attribute
of `Record` (and with a single `=` in the query), search returns an empty
sequence; the unknown-field message is logged exactly when the directory is
nonempty (the check runs on the first loop iteration), and nothing is logged
for an empty directory. -/
theorem search_unknown_field (records : List Record) (f v : PyStr)
    (hattr : recordHasAttr f = false) (hf : '=' ∉ f) (hv : '=' ∉ v) :
    search_records records (f ++ '=' :: v) =
      .ok ([], if records.isEmpty then [] else [.unknownField f]) := by
  rw [search_records_single_eq records hf hv]
  exact searchFieldLoop_unknown v hattr records

/-- C7 witness: the P5 unknown-field instance `first_nam=андрей` on a
one-record directory, evaluated. -/
theorem search_unknown_field_witness :
    (recordHasAttr (S "first_nam") = false) ∧ ('=' ∉ S "first_nam") ∧ ('=' ∉ S "андрей") ∧
    search_records [sokolovRecord] (S "first_nam" ++ '=' :: S "андрей") =
      .ok ([], if List.isEmpty [sokolovRecord] then [] else [.unknownField (S "first_nam")]) ∧
    search_records [sokolovRecord] (S "first_nam" ++ '=' :: S "андрей") =
      .ok ([], [.unknownField (S "first_nam")]) :=
  ⟨by decide, by decide, by decide,
   search_unknown_field [sokolovRecord] (S "first_nam") (S "андрей")
     (by decide) (by decide) (by decide),
   by decide⟩

/-!
### C5: all-or-nothing load
-/

theorem buildRecords_error_of_bad :
    ∀ raws : List RawRecord, (∃ raw ∈ raws, recordFieldErrors raw ≠ []) →
      ∃ e, buildRecords raws = .error e := by
  intro raws
  induction raws with
  | nil => rintro ⟨raw, hmem, _⟩; cases hmem
  | cons raw rest ih =>
    rintro ⟨raw0, hmem, hbad⟩
    cases he : recordFieldErrors raw with
    | cons e es => exact ⟨e :: es, by simp [buildRecords, mkRecord, he]⟩
    | nil =>
      have hrest : raw0 ∈ rest := by
        rcases List.mem_cons.mp hmem with h0 | h0
        · exact absurd he (h0 ▸ hbad)
        · exact h0
      obtain ⟨e, hrec⟩ := ih ⟨raw0, hrest, hbad⟩
      exact ⟨e, by simp [buildRecords, mkRecord, he, hrec]⟩

/-- C5: if the persisted file parses but contains at least one record
failing validation, `load_records` logs the validation error and returns an
empty directory — every record in the file, valid ones included, is
discarded. -/
theorem load_all_or_nothing (raws : List RawRecord)
    (h : ∃ raw ∈ raws, recordFieldErrors raw ≠ []) :
    load_records (.parsed raws) = ([], [.validationError]) := by
  obtain ⟨e, hrec⟩ := buildRecords_error_of_bad raws h
  simp [load_records, hrec]

/-- C5 witness: a file with one valid record followed by one record whose
last name `"1"` fails the name pattern loads as the empty directory. -/
theorem load_all_or_nothing_witness :
    (∃ raw ∈ [smithRecord.toRaw, { smithRecord.toRaw with last_name := S "1" }],
      recordFieldErrors raw ≠ []) ∧
    load_records (.parsed [smithRecord.toRaw, { smithRecord.toRaw with last_name := S "1" }]) =
      ([], [.validationError]) :=
  ⟨by decide,
   load_all_or_nothing [smithRecord.toRaw, { smithRecord.toRaw with last_name := S "1" }]
     (by decide)⟩

/-!
### C8: save/load round trip
-/

theorem mkRecord_toRaw (r : Record) (h : recordIsValid r = true) :
    mkRecord r.toRaw = .ok r := by
  have hr : recordFieldErrors r.toRaw = [] := by
    simpa [recordIsValid, List.isEmpty_iff] using h
  unfold mkRecord
  rw [hr]
  rfl

theorem buildRecords_map_toRaw :
    ∀ records : List Record, (∀ r ∈ records, recordIsValid r = true) →
      buildRecords (records.map Record.toRaw) = .ok records := by
  intro records
  induction records with
  | nil => intro _; rfl
  | cons r rest ih =>
    intro h
    have hr := mkRecord_toRaw r (h r (List.mem_cons_self r rest))
    have hrest := ih (fun x hx => h x (List.mem_cons_of_mem _ hx))
    simp only [List.map_cons, buildRecords]
    rw [hr, hrest]

/-- C8: saving a directory of valid records and loading the result back
reconstructs the directory exactly — record order and all six field values
preserved, with nothing logged. -/
theorem save_load_roundtrip (records : List Record)
    (h : ∀ r ∈ records, recordIsValid r = true) :
    load_records (.parsed (save_records records)) = (records, []) := by
  simp [load_records, save_records, buildRecords_map_toRaw records h]

/-- C8 witness: the round trip on a two-record directory, evaluated. -/
theorem save_load_roundtrip_witness :
    (∀ r ∈ [sokolovRecord, smithRecord], recordIsValid r = true) ∧
    load_records (.parsed (save_records [sokolovRecord, smithRecord])) =
      ([sokolovRecord, smithRecord], []) :=
  ⟨by decide, save_load_roundtrip [sokolovRecord, smithRecord] (by decide)⟩


/-!
### C9 and C10: pagination
-/

theorem pySlice_nonneg {α : Type} (l : List α) (a b : Int)
    (ha : 0 ≤ a) (hab : a ≤ b) :
    pySlice l a b = (l.drop a.toNat).take (b.toNat - a.toNat) := by
  unfold pySlice pySliceIdx
  rw [if_neg (not_lt.mpr ha), if_neg (not_lt.mpr (ha.trans hab))]
  rw [List.drop_take]
  rcases le_total a.toNat l.length with hle | hge
  · rw [min_eq_left hle]
    rcases le_total b.toNat l.length with hble | hbge
    · rw [min_eq_left hble]
    · rw [min_eq_right hbge]
      have hlen : (l.drop a.toNat).length = l.length - a.toNat := List.length_drop ..
      rw [List.take_of_length_le (le_of_eq hlen),
        List.take_of_length_le (by rw [hlen]; exact Nat.sub_le_sub_right hbge _)]
  · rw [min_eq_right hge, List.drop_length, List.drop_eq_nil_of_le hge]
    simp

theorem intCeilDiv_eq_ceil (n : Nat) (s : Int) (hs : 0 < s) :
    intCeilDiv n s = ⌈(n : ℚ) / (s : ℚ)⌉ := by
  have hm : 0 < s.toNat := by omega
  have hsm : ((s.toNat : Nat) : Int) = s := Int.toNat_of_nonneg hs.le
  set m := s.toNat with hmdef
  set z := (n + m - 1) / m with hzdef
  have hlb : m * z ≤ n + m - 1 := by
    rw [hzdef, Nat.mul_comm]; exact Nat.div_mul_le_self _ _
  have hub : n ≤ m * z := by
    have h2 : n + m - 1 < m * z + m := by
      calc n + m - 1 < m * (z + 1) := Nat.lt_mul_div_succ _ hm
        _ = m * z + m := by ring
    generalize m * z = k at h2 ⊢
    omega
  have hL : intCeilDiv n s = (z : Int) := by
    unfold intCeilDiv
    rw [← hsm]
    have hnum : (n : Int) + (m : Int) - 1 = ((n + m - 1 : Nat) : Int) := by omega
    rw [hnum, ← Int.ofNat_ediv]
  have hq : (0 : ℚ) < (m : ℚ) := by exact_mod_cast hm
  have hmq : ((m : Nat) : ℚ) = ((s : Int) : ℚ) := by exact_mod_cast hsm
  rw [hL]
  refine (Int.ceil_eq_iff.mpr ⟨?_, ?_⟩).symm
  · rw [← hmq, lt_div_iff₀ hq]
    have h' : ((m * z : Nat) : ℚ) ≤ ((n + m - 1 : Nat) : ℚ) := Nat.cast_le.mpr hlb
    rw [Nat.cast_sub (by omega)] at h'
    push_cast at h' ⊢
    linarith
  · rw [← hmq, div_le_iff₀ hq]
    have h' : ((n : Nat) : ℚ) ≤ ((m * z : Nat) : ℚ) := Nat.cast_le.mpr hub
    push_cast at h' ⊢
    linarith

/-- C9 counterexample: page number `-1` of a 15-record directory with page
size 5 is out of range, yet the slice is NOT empty — Python's negative slice
indexing makes `records[-10:-5]` the records at positions 6 through 10. -/
theorem paginate_negative_page_nonempty :
    (paginate pageRecords 5 (-1)).1 = (pageRecords.drop 5).take 5 ∧
    (paginate pageRecords 5 (-1)).1 ≠ [] := by decide

/-- C9 as amended: for page size `s > 0` and page number `p ≥ 1`, the
displayed slice is the records from offset `(p-1)*s` through `(p-1)*s+s`
clipped to the available length (so an out-of-range page number `p ≥ 1`
yields an empty slice), and the reported total page count is `⌈n/s⌉`; for
page numbers `p ≤ 0` Python's negative slice indexing applies instead and
the slice can be nonempty. -/
theorem paginate_pos (records : List Record) (s p : Int)
    (hs : 0 < s) (hp : 1 ≤ p) :
    paginate records s p =
      ((records.drop ((p - 1) * s).toNat).take s.toNat,
       ⌈(records.length : ℚ) / (s : ℚ)⌉) := by
  have ha : 0 ≤ (p - 1) * s := mul_nonneg (by omega) hs.le
  show (pySlice records ((p - 1) * s) ((p - 1) * s + s),
        intCeilDiv records.length s) = _
  rw [Prod.mk.injEq]
  constructor
  · rw [pySlice_nonneg records _ _ ha (le_add_of_nonneg_right hs.le)]
    rw [Int.toNat_add ha hs.le, Nat.add_sub_cancel_left]
  · exact intCeilDiv_eq_ceil records.length s hs

/-- C9 witness: the P7 instance — 15 records, page size 5: page 1 holds
items 1 through 5 with 3 total pages, and page 4 is empty. -/
theorem paginate_pos_witness :
    ((0 : Int) < 5) ∧ ((1 : Int) ≤ 1) ∧
    paginate pageRecords 5 1 =
      ((pageRecords.drop (((1 : Int) - 1) * 5).toNat).take (5 : Int).toNat,
       ⌈(pageRecords.length : ℚ) / ((5 : Int) : ℚ)⌉) ∧
    paginate pageRecords 5 1 = (pageRecords.take 5, 3) ∧
    paginate pageRecords 5 4 = ([], 3) :=
  ⟨by decide, by decide, paginate_pos pageRecords 5 1 (by decide) (by decide),
   by decide, by decide⟩

/-- C10: an explicitly empty `records` argument does not display an empty
page — `records or self.records` treats the empty list like the `None`
default, so the directory's full record list is paginated and its length
drives the total page count. -/
theorem display_records_empty_list_fallback (selfRecords : List Record)
    (s p : Int) :
    display_records selfRecords (some []) s p = display_records selfRecords none s p ∧
    display_records selfRecords (some []) s p = paginate selfRecords s p :=
  ⟨rfl, rfl⟩

/-!
### C1: field replacement during edit
-/

/-- C1 (the code against the claim): the pydantic dataclass has no
`validate_assignment` config, so the `setattr` in `edit_record` stores the
new value without re-validation and `save_records` persists it; editing the
last name of a valid record to `"1"` (which fails the name pattern) succeeds
and the invalid record is both stored in the directory and persisted. -/
theorem edit_record_stores_invalid :
    recordIsValid smithRecord = true ∧
    edit_record [smithRecord] 0 1 (S "1") = [{ smithRecord with last_name := S "1" }] ∧
    validate_string_fields (S "1") = false ∧
    recordIsValid { smithRecord with last_name := S "1" } = false ∧
    save_records (edit_record [smithRecord] 0 1 (S "1")) =
      [Record.toRaw { smithRecord with last_name := S "1" }] := by decide

/-!
### C4: anchoring of the phone pattern
-/

/-- C4 counterexample: `"495-555-6666X"` has a prefix fully matching the
phone pattern body, yet `validate_phone` rejects it — the source pattern
ends with `$`, so it is anchored at both ends, not at the start only. -/
theorem validate_phone_trailing_char_rejected :
    phoneCore (S "495-555-6666") = true ∧
    validate_phone (S "495-555-6666") = true ∧
    validate_phone (S "495-555-6666X") = false := by decide

theorem stripOptChar_append (c : Char) {cs : PyStr} (h : cs ≠ []) (t : PyStr) :
    stripOptChar c (cs ++ t) = stripOptChar c cs ++ t := by
  cases cs with
  | nil => exact absurd rfl h
  | cons x rest => by_cases hx : x = c <;> simp [stripOptChar, hx]

theorem stripOptPred_append (p : Char → Bool) {cs : PyStr} (h : cs ≠ []) (t : PyStr) :
    stripOptPred p (cs ++ t) = stripOptPred p cs ++ t := by
  cases cs with
  | nil => exact absurd rfl h
  | cons x rest => cases hx : p x <;> simp [stripOptPred, hx]

theorem eatDigits_append (n : Nat) {cs r : PyStr} (h : eatDigits n cs = some r)
    (t : PyStr) : eatDigits n (cs ++ t) = some (r ++ t) := by
  induction n generalizing cs with
  | zero =>
    simp [eatDigits] at h
    subst h
    rfl
  | succ n ih =>
    cases cs with
    | nil => simp [eatDigits] at h
    | cons x rest =>
      cases hx : isDigitChar x with
      | false => simp [eatDigits, hx] at h
      | true =>
        simp only [eatDigits, hx, if_true, List.cons_append] at h ⊢
        exact ih h

/-- Appending input after a successful parse of the phone prefix groups only
extends the unconsumed rest, provided the rest was nonempty. -/
theorem phonePrefixRest_append {s r : PyStr} (hpr : phonePrefixRest s = some r)
    (hr : r ≠ []) (t : PyStr) :
    phonePrefixRest (s ++ t) = some (r ++ t) := by
  unfold phonePrefixRest at hpr
  cases h1 : eatDigits 3 (stripOptChar '(' (stripOptChar '+' s)) with
  | none => rw [h1] at hpr; exact absurd hpr (by simp)
  | some cs3 =>
    simp only [h1] at hpr
    cases h2 : eatDigits 3 (stripOptPred isSepChar (stripOptChar ')' cs3)) with
    | none => simp only [h2] at hpr; exact absurd hpr (by simp)
    | some cs6 =>
      simp only [h2] at hpr
      have hpr' : stripOptPred isSepChar cs6 = r := by simpa using hpr
      have hcs6 : cs6 ≠ [] := by
        intro hh
        apply hr
        rw [← hpr', hh]
        rfl
      have hs2 : stripOptChar ')' cs3 ≠ [] := by
        intro hh; rw [hh] at h2; simp [stripOptPred, eatDigits] at h2
      have hcs3 : cs3 ≠ [] := by
        intro hh
        apply hs2
        rw [hh]
        rfl
      have hs1 : stripOptChar '+' s ≠ [] := by
        intro hh; rw [hh] at h1; simp [stripOptChar, eatDigits] at h1
      have hs0 : s ≠ [] := by
        intro hh
        apply hs1
        rw [hh]
        rfl
      simp only [phonePrefixRest, stripOptChar_append '+' hs0 t,
        stripOptChar_append '(' hs1 t, eatDigits_append 3 h1 t,
        stripOptChar_append ')' hcs3 t, stripOptPred_append isSepChar hs2 t,
        eatDigits_append 3 h2 t, stripOptPred_append isSepChar hcs6 t, hpr']

/-- C4 as amended: the phone pattern is anchored at both ends — appending
any character other than a digit or a newline to a string fully matching the
pattern body makes validation fail (a digit can legally extend the final
4-to-6-digit group, and Python's `$` still accepts one trailing newline). -/
theorem validate_phone_end_anchored (s : PyStr) (c : Char)
    (hcore : phoneCore s = true) (hd : isDigitChar c = false) (hn : c ≠ '\n') :
    validate_phone (s ++ [c]) = false := by
  unfold phoneCore at hcore
  cases hpr : phonePrefixRest s with
  | none => rw [hpr] at hcore; simp at hcore
  | some rest =>
    rw [hpr] at hcore
    simp only [Bool.and_eq_true, decide_eq_true_eq] at hcore
    obtain ⟨⟨hall, hlen4⟩, _⟩ := hcore
    have hrne : rest ≠ [] := by
      intro hh; rw [hh] at hlen4; simp at hlen4
    have happ := phonePrefixRest_append hpr hrne [c]
    have hc1 : phoneCore (s ++ [c]) = false := by
      unfold phoneCore
      rw [happ]
      simp [List.all_append, hd]
    have hc2 : ((s ++ [c]).getLast? == some '\n') = false := by
      rw [List.getLast?_concat]
      simp [hn]
    unfold validate_phone pyDollarMatch
    rw [hc1, hc2]
    rfl

/-- C4 witness: a fully matching phone followed by the letter `x` fails. -/
theorem validate_phone_end_anchored_witness :
    phoneCore (S "(916)666-7777") = true ∧ isDigitChar 'x' = false ∧ ('x' ≠ '\n') ∧
    validate_phone (S "(916)666-7777" ++ ['x']) = false :=
  ⟨by decide, by decide, by decide,
   validate_phone_end_anchored (S "(916)666-7777") 'x' (by decide) (by decide) (by decide)⟩
